import Mathlib

/-!
Verification development for the mdz_unicode library (maxdz Software GmbH):
a family of dynamically-sized contiguous Unicode string containers
(UTF-8, UTF-16, UTF-32, wchar) with validated insertion, cross-encoding
conversion, capacity control and attachable external memory.

The repository ships only the public C headers (mdz_types.h, mdz_unicode.h,
mdz_utf8.h, mdz_utf16.h, mdz_utf32.h, mdz_wchar.h); the implementation is a
closed binary.  The operations are therefore modelled here from the
specification and from the detailed behavioural contracts written in the
header doc comments (parameter meaning, return values and error codes of
every function).  Definitions carrying a doc comment starting with
Modelled from the spec are such models of the missing implementation.
-/

namespace MdzUnicode

/-! ## Codec layer: code points, UTF-8, UTF-16, UTF-32, endianness -/

/-- A Unicode scalar value: a code point at most U+10FFFF that is not in the
surrogate range U+D800 to U+DFFF. -/
def isScalar (c : Nat) : Prop := c ≤ 0x10FFFF ∧ ¬ (0xD800 ≤ c ∧ c ≤ 0xDFFF)

instance (c : Nat) : Decidable (isScalar c) := by
  unfold isScalar; infer_instance

/-- Modelled from the spec: UTF-8 encoding of one Unicode scalar value,
as the list of bytes the codec layer produces for it. -/
def utf8EncodeChar (c : Nat) : List Nat :=
  if c < 0x80 then [c]
  else if c < 0x800 then [0xC0 + c / 0x40, 0x80 + c % 0x40]
  else if c < 0x10000 then
    [0xE0 + c / 0x1000, 0x80 + (c / 0x40) % 0x40, 0x80 + c % 0x40]
  else
    [0xF0 + c / 0x40000, 0x80 + (c / 0x1000) % 0x40, 0x80 + (c / 0x40) % 0x40,
      0x80 + c % 0x40]

/-- UTF-8 encoding of a list of scalar values. -/
def utf8Encode (cs : List Nat) : List Nat := (cs.map utf8EncodeChar).flatten

/-- Modelled from the spec: strict UTF-8 validation and decoding of one symbol.
Returns the decoded code point and the remaining bytes, or nothing when the
input does not start with a well-formed UTF-8 sequence (wrong continuation
bytes, overlong encoding, surrogate code point, or above U+10FFFF). -/
def utf8DecodeSym : List Nat → Option (Nat × List Nat)
  | [] => Option.none
  | b :: rest =>
    if b < 0x80 then some (b, rest)
    else if b < 0xC2 then Option.none
    else if b < 0xE0 then
      match rest with
      | b1 :: r =>
        if 0x80 ≤ b1 ∧ b1 < 0xC0 then some ((b - 0xC0) * 0x40 + (b1 - 0x80), r)
        else Option.none
      | [] => Option.none
    else if b < 0xF0 then
      match rest with
      | b1 :: b2 :: r =>
        if 0x80 ≤ b1 ∧ b1 < 0xC0 ∧ 0x80 ≤ b2 ∧ b2 < 0xC0 then
          if 0x800 ≤ (b - 0xE0) * 0x1000 + (b1 - 0x80) * 0x40 + (b2 - 0x80) ∧
              ¬ (0xD800 ≤ (b - 0xE0) * 0x1000 + (b1 - 0x80) * 0x40 + (b2 - 0x80) ∧
                (b - 0xE0) * 0x1000 + (b1 - 0x80) * 0x40 + (b2 - 0x80) ≤ 0xDFFF) then
            some ((b - 0xE0) * 0x1000 + (b1 - 0x80) * 0x40 + (b2 - 0x80), r)
          else Option.none
        else Option.none
      | _ => Option.none
    else if b < 0xF5 then
      match rest with
      | b1 :: b2 :: b3 :: r =>
        if 0x80 ≤ b1 ∧ b1 < 0xC0 ∧ 0x80 ≤ b2 ∧ b2 < 0xC0 ∧ 0x80 ≤ b3 ∧ b3 < 0xC0 then
          if 0x10000 ≤ (b - 0xF0) * 0x40000 + (b1 - 0x80) * 0x1000 +
                (b2 - 0x80) * 0x40 + (b3 - 0x80) ∧
              (b - 0xF0) * 0x40000 + (b1 - 0x80) * 0x1000 +
                (b2 - 0x80) * 0x40 + (b3 - 0x80) ≤ 0x10FFFF then
            some ((b - 0xF0) * 0x40000 + (b1 - 0x80) * 0x1000 +
              (b2 - 0x80) * 0x40 + (b3 - 0x80), r)
          else Option.none
        else Option.none
      | _ => Option.none
    else Option.none

/-- Fuel-indexed UTF-8 validation and decoding of a whole byte sequence; the
fuel bounds the number of decoded symbols. -/
def utf8DecodeFuel : Nat → List Nat → Option (List Nat)
  | _, [] => some []
  | 0, _ :: _ => Option.none
  | fuel + 1, b :: rest =>
    match utf8DecodeSym (b :: rest) with
    | Option.none => Option.none
    | some (c, r) => (utf8DecodeFuel fuel r).map (fun cs => c :: cs)

/-- Modelled from the spec: UTF-8 validation and decoding of a byte sequence
into its list of code points.  Each decoded symbol consumes at least one byte,
so the length of the input is enough fuel. -/
def utf8Decode (l : List Nat) : Option (List Nat) := utf8DecodeFuel l.length l

theorem utf8EncodeChar_one {c : Nat} (h : c < 0x80) : utf8EncodeChar c = [c] := by
  simp only [utf8EncodeChar]; rw [if_pos h]

theorem utf8EncodeChar_two {c : Nat} (h1 : 0x80 ≤ c) (h2 : c < 0x800) :
    utf8EncodeChar c = [0xC0 + c / 0x40, 0x80 + c % 0x40] := by
  simp only [utf8EncodeChar]; rw [if_neg (by omega), if_pos h2]

theorem utf8EncodeChar_three {c : Nat} (h1 : 0x800 ≤ c) (h2 : c < 0x10000) :
    utf8EncodeChar c =
      [0xE0 + c / 0x1000, 0x80 + (c / 0x40) % 0x40, 0x80 + c % 0x40] := by
  simp only [utf8EncodeChar]; rw [if_neg (by omega), if_neg (by omega), if_pos h2]

theorem utf8EncodeChar_four {c : Nat} (h1 : 0x10000 ≤ c) :
    utf8EncodeChar c =
      [0xF0 + c / 0x40000, 0x80 + (c / 0x1000) % 0x40, 0x80 + (c / 0x40) % 0x40,
        0x80 + c % 0x40] := by
  simp only [utf8EncodeChar]
  rw [if_neg (by omega), if_neg (by omega), if_neg (by omega)]

/-- Decoding one UTF-8 symbol yields a scalar value whose re-encoding restores
exactly the consumed bytes. -/
theorem utf8DecodeSym_sound {l : List Nat} {c : Nat} {r : List Nat}
    (h : utf8DecodeSym l = some (c, r)) :
    isScalar c ∧ utf8EncodeChar c ++ r = l := by
  match l with
  | [] => simp [utf8DecodeSym] at h
  | b :: rest =>
    by_cases h1 : b < 0x80
    · simp only [utf8DecodeSym, if_pos h1, Option.some.injEq, Prod.mk.injEq] at h
      obtain ⟨hc, hr⟩ := h
      subst hc; subst hr
      refine ⟨⟨by omega, by omega⟩, ?_⟩
      rw [utf8EncodeChar_one h1]; rfl
    · by_cases h2 : b < 0xC2
      · simp [utf8DecodeSym, if_neg h1, if_pos h2] at h
      · by_cases h3 : b < 0xE0
        · match rest with
          | [] => simp [utf8DecodeSym, if_neg h1, if_neg h2, if_pos h3] at h
          | b1 :: r1 =>
            simp only [utf8DecodeSym, if_neg h1, if_neg h2, if_pos h3] at h
            by_cases hb1 : 0x80 ≤ b1 ∧ b1 < 0xC0
            · rw [if_pos hb1] at h
              simp only [Option.some.injEq, Prod.mk.injEq] at h
              obtain ⟨hc, hr⟩ := h
              subst hc; subst hr
              obtain ⟨hb1a, hb1b⟩ := hb1
              refine ⟨⟨by omega, by omega⟩, ?_⟩
              rw [utf8EncodeChar_two (by omega) (by omega)]
              have hdiv : ((b - 0xC0) * 0x40 + (b1 - 0x80)) / 0x40 = b - 0xC0 := by
                omega
              have hmod : ((b - 0xC0) * 0x40 + (b1 - 0x80)) % 0x40 = b1 - 0x80 := by
                omega
              rw [hdiv, hmod]
              simp only [List.cons_append, List.nil_append, List.cons.injEq]
              exact ⟨by omega, by omega, trivial⟩
            · rw [if_neg hb1] at h; exact absurd h (by simp)
        · by_cases h4 : b < 0xF0
          · match rest with
            | [] => simp [utf8DecodeSym, if_neg h1, if_neg h2, if_neg h3, if_pos h4] at h
            | [b1] => simp [utf8DecodeSym, if_neg h1, if_neg h2, if_neg h3, if_pos h4] at h
            | b1 :: b2 :: r2 =>
              simp only [utf8DecodeSym, if_neg h1, if_neg h2, if_neg h3, if_pos h4] at h
              by_cases hb : 0x80 ≤ b1 ∧ b1 < 0xC0 ∧ 0x80 ≤ b2 ∧ b2 < 0xC0
              · rw [if_pos hb] at h
                by_cases hv : 0x800 ≤ (b - 0xE0) * 0x1000 + (b1 - 0x80) * 0x40 + (b2 - 0x80) ∧
                    ¬ (0xD800 ≤ (b - 0xE0) * 0x1000 + (b1 - 0x80) * 0x40 + (b2 - 0x80) ∧
                      (b - 0xE0) * 0x1000 + (b1 - 0x80) * 0x40 + (b2 - 0x80) ≤ 0xDFFF)
                · rw [if_pos hv] at h
                  simp only [Option.some.injEq, Prod.mk.injEq] at h
                  obtain ⟨hc, hr⟩ := h
                  subst hc; subst hr
                  obtain ⟨hb1a, hb1b, hb2a, hb2b⟩ := hb
                  refine ⟨⟨by omega, by omega⟩, ?_⟩
                  rw [utf8EncodeChar_three (by omega) (by omega)]
                  have e1 : ((b - 0xE0) * 0x1000 + (b1 - 0x80) * 0x40 + (b2 - 0x80)) / 0x1000
                      = b - 0xE0 := by omega
                  have e2 : (((b - 0xE0) * 0x1000 + (b1 - 0x80) * 0x40 + (b2 - 0x80)) / 0x40) % 0x40
                      = b1 - 0x80 := by omega
                  have e3 : ((b - 0xE0) * 0x1000 + (b1 - 0x80) * 0x40 + (b2 - 0x80)) % 0x40
                      = b2 - 0x80 := by omega
                  rw [e1, e2, e3]
                  simp only [List.cons_append, List.nil_append, List.cons.injEq]
                  exact ⟨by omega, by omega, by omega, trivial⟩
                · rw [if_neg hv] at h; exact absurd h (by simp)
              · rw [if_neg hb] at h; exact absurd h (by simp)
          · by_cases h5 : b < 0xF5
            · match rest with
              | [] => simp [utf8DecodeSym, if_neg h1, if_neg h2, if_neg h3, if_neg h4, if_pos h5] at h
              | [b1] => simp [utf8DecodeSym, if_neg h1, if_neg h2, if_neg h3, if_neg h4, if_pos h5] at h
              | [b1, b2] => simp [utf8DecodeSym, if_neg h1, if_neg h2, if_neg h3, if_neg h4, if_pos h5] at h
              | b1 :: b2 :: b3 :: r3 =>
                simp only [utf8DecodeSym, if_neg h1, if_neg h2, if_neg h3, if_neg h4,
                  if_pos h5] at h
                by_cases hb : 0x80 ≤ b1 ∧ b1 < 0xC0 ∧ 0x80 ≤ b2 ∧ b2 < 0xC0 ∧
                    0x80 ≤ b3 ∧ b3 < 0xC0
                · rw [if_pos hb] at h
                  by_cases hv : 0x10000 ≤ (b - 0xF0) * 0x40000 + (b1 - 0x80) * 0x1000 +
                        (b2 - 0x80) * 0x40 + (b3 - 0x80) ∧
                      (b - 0xF0) * 0x40000 + (b1 - 0x80) * 0x1000 +
                        (b2 - 0x80) * 0x40 + (b3 - 0x80) ≤ 0x10FFFF
                  · rw [if_pos hv] at h
                    simp only [Option.some.injEq, Prod.mk.injEq] at h
                    obtain ⟨hc, hr⟩ := h
                    subst hc; subst hr
                    obtain ⟨hb1a, hb1b, hb2a, hb2b, hb3a, hb3b⟩ := hb
                    refine ⟨⟨by omega, by omega⟩, ?_⟩
                    rw [utf8EncodeChar_four (by omega)]
                    have e1 : ((b - 0xF0) * 0x40000 + (b1 - 0x80) * 0x1000 +
                        (b2 - 0x80) * 0x40 + (b3 - 0x80)) / 0x40000 = b - 0xF0 := by omega
                    have e2 : (((b - 0xF0) * 0x40000 + (b1 - 0x80) * 0x1000 +
                        (b2 - 0x80) * 0x40 + (b3 - 0x80)) / 0x1000) % 0x40 = b1 - 0x80 := by
                      omega
                    have e3 : (((b - 0xF0) * 0x40000 + (b1 - 0x80) * 0x1000 +
                        (b2 - 0x80) * 0x40 + (b3 - 0x80)) / 0x40) % 0x40 = b2 - 0x80 := by
                      omega
                    have e4 : ((b - 0xF0) * 0x40000 + (b1 - 0x80) * 0x1000 +
                        (b2 - 0x80) * 0x40 + (b3 - 0x80)) % 0x40 = b3 - 0x80 := by omega
                    rw [e1, e2, e3, e4]
                    simp only [List.cons_append, List.nil_append, List.cons.injEq]
                    exact ⟨by omega, by omega, by omega, by omega, trivial⟩
                  · rw [if_neg hv] at h; exact absurd h (by simp)
                · rw [if_neg hb] at h; exact absurd h (by simp)
            · simp [utf8DecodeSym, if_neg h1, if_neg h2, if_neg h3, if_neg h4, if_neg h5] at h

theorem utf8Encode_nil : utf8Encode [] = [] := rfl

theorem utf8Encode_cons (c : Nat) (cs : List Nat) :
    utf8Encode (c :: cs) = utf8EncodeChar c ++ utf8Encode cs := by
  simp [utf8Encode]

/-- Decoding a whole UTF-8 byte sequence yields scalar values whose
re-encoding restores the original bytes. -/
theorem utf8DecodeFuel_sound : ∀ (fuel : Nat) (l cps : List Nat),
    utf8DecodeFuel fuel l = some cps →
    utf8Encode cps = l ∧ ∀ c ∈ cps, isScalar c := by
  intro fuel
  induction fuel with
  | zero =>
    intro l cps h
    match l with
    | [] =>
      simp only [utf8DecodeFuel, Option.some.injEq] at h
      subst h; exact ⟨rfl, by simp⟩
    | b :: rest => simp [utf8DecodeFuel] at h
  | succ n ih =>
    intro l cps h
    match l with
    | [] =>
      simp only [utf8DecodeFuel, Option.some.injEq] at h
      subst h; exact ⟨rfl, by simp⟩
    | b :: rest =>
      simp only [utf8DecodeFuel] at h
      match hs : utf8DecodeSym (b :: rest) with
      | Option.none => rw [hs] at h; exact absurd h (by simp)
      | some (c, r) =>
        rw [hs] at h
        dsimp only at h
        cases hf : utf8DecodeFuel n r with
        | none => rw [hf] at h; simp at h
        | some cs =>
          rw [hf] at h
          simp at h
          subst h
          obtain ⟨henc, hsc⟩ := ih r cs hf
          obtain ⟨hscal, hbytes⟩ := utf8DecodeSym_sound hs
          refine ⟨?_, ?_⟩
          · rw [utf8Encode_cons, henc, hbytes]
          · intro x hx
            rcases List.mem_cons.mp hx with hx | hx
            · subst hx; exact hscal
            · exact hsc x hx

/-- Soundness of the top-level UTF-8 decoder. -/
theorem utf8Decode_sound {l cps : List Nat} (h : utf8Decode l = some cps) :
    utf8Encode cps = l ∧ ∀ c ∈ cps, isScalar c :=
  utf8DecodeFuel_sound l.length l cps h

/-- Modelled from the spec: UTF-16 encoding of one scalar value in logical
(host) unit order; values above U+FFFF become a high/low surrogate pair. -/
def utf16EncodeChar (c : Nat) : List Nat :=
  if c < 0x10000 then [c]
  else [0xD800 + (c - 0x10000) / 0x400, 0xDC00 + (c - 0x10000) % 0x400]

/-- UTF-16 encoding of a list of scalar values. -/
def utf16Encode (cs : List Nat) : List Nat := (cs.map utf16EncodeChar).flatten

/-- Modelled from the spec: UTF-16 validation and decoding of one symbol.
A high surrogate must be immediately followed by a low surrogate (together one
symbol); an unpaired surrogate is invalid content.  Units are 16-bit. -/
def utf16DecodeSym : List Nat → Option (Nat × List Nat)
  | [] => Option.none
  | u :: rest =>
    if u < 0xD800 ∨ 0xE000 ≤ u then
      if u ≤ 0xFFFF then some (u, rest) else Option.none
    else if u < 0xDC00 then
      match rest with
      | u2 :: r =>
        if 0xDC00 ≤ u2 ∧ u2 < 0xE000 then
          some (0x10000 + (u - 0xD800) * 0x400 + (u2 - 0xDC00), r)
        else Option.none
      | [] => Option.none
    else Option.none

/-- Fuel-indexed UTF-16 validation and decoding; the fuel bounds the number of
decoded symbols. -/
def utf16DecodeFuel : Nat → List Nat → Option (List Nat)
  | _, [] => some []
  | 0, _ :: _ => Option.none
  | fuel + 1, u :: rest =>
    match utf16DecodeSym (u :: rest) with
    | Option.none => Option.none
    | some (c, r) => (utf16DecodeFuel fuel r).map (fun cs => c :: cs)

/-- Modelled from the spec: UTF-16 validation and decoding of a unit sequence
into its list of code points. -/
def utf16Decode (l : List Nat) : Option (List Nat) := utf16DecodeFuel l.length l

theorem utf16Encode_nil : utf16Encode [] = [] := rfl

theorem utf16Encode_cons (c : Nat) (cs : List Nat) :
    utf16Encode (c :: cs) = utf16EncodeChar c ++ utf16Encode cs := by
  simp [utf16Encode]

/-- Decoding one UTF-16 symbol yields a scalar value whose re-encoding
restores exactly the consumed units. -/
theorem utf16DecodeSym_sound {l : List Nat} {c : Nat} {r : List Nat}
    (h : utf16DecodeSym l = some (c, r)) :
    isScalar c ∧ utf16EncodeChar c ++ r = l := by
  match l with
  | [] => simp [utf16DecodeSym] at h
  | u :: rest =>
    by_cases h1 : u < 0xD800 ∨ 0xE000 ≤ u
    · simp only [utf16DecodeSym, if_pos h1] at h
      by_cases h2 : u ≤ 0xFFFF
      · rw [if_pos h2] at h
        simp only [Option.some.injEq, Prod.mk.injEq] at h
        obtain ⟨hc, hr⟩ := h
        subst hc; subst hr
        refine ⟨⟨by omega, by omega⟩, ?_⟩
        simp only [utf16EncodeChar]
        rw [if_pos (by omega)]; rfl
      · rw [if_neg h2] at h; exact absurd h (by simp)
    · simp only [utf16DecodeSym, if_neg h1] at h
      by_cases h2 : u < 0xDC00
      · rw [if_pos h2] at h
        match rest with
        | [] => exact absurd h (by simp)
        | u2 :: r2 =>
          dsimp only at h
          by_cases h3 : 0xDC00 ≤ u2 ∧ u2 < 0xE000
          · rw [if_pos h3] at h
            simp only [Option.some.injEq, Prod.mk.injEq] at h
            obtain ⟨hc, hr⟩ := h
            subst hc; subst hr
            obtain ⟨h3a, h3b⟩ := h3
            refine ⟨⟨by omega, by omega⟩, ?_⟩
            simp only [utf16EncodeChar]
            rw [if_neg (by omega)]
            have e1 : (0x10000 + (u - 0xD800) * 0x400 + (u2 - 0xDC00) - 0x10000) / 0x400
                = u - 0xD800 := by omega
            have e2 : (0x10000 + (u - 0xD800) * 0x400 + (u2 - 0xDC00) - 0x10000) % 0x400
                = u2 - 0xDC00 := by omega
            rw [e1, e2]
            simp only [List.cons_append, List.nil_append, List.cons.injEq]
            exact ⟨by omega, by omega, trivial⟩
          · rw [if_neg h3] at h; exact absurd h (by simp)
      · rw [if_neg h2] at h; exact absurd h (by simp)

/-- Decoding one symbol from the UTF-16 encoding of a scalar value restores
that scalar value and consumes exactly its units. -/
theorem utf16DecodeSym_encode {c : Nat} (hc : isScalar c) (tail : List Nat) :
    utf16DecodeSym (utf16EncodeChar c ++ tail) = some (c, tail) := by
  obtain ⟨hle, hsur⟩ := hc
  by_cases h1 : c < 0x10000
  · simp only [utf16EncodeChar, if_pos h1, List.cons_append, List.nil_append]
    simp only [utf16DecodeSym]
    rw [if_pos (by omega), if_pos (by omega)]
  · simp only [utf16EncodeChar, if_neg h1, List.cons_append, List.nil_append]
    simp only [utf16DecodeSym]
    have hd : (c - 0x10000) / 0x400 ≤ 0x3FF := by omega
    have hm : (c - 0x10000) % 0x400 ≤ 0x3FF := by omega
    rw [if_neg (by omega), if_pos (by omega), if_pos (by omega)]
    simp only [Option.some.injEq, Prod.mk.injEq]
    exact ⟨by omega, trivial⟩

/-- Decoding the UTF-16 encoding of scalar values restores them, for any fuel
at least the number of symbols. -/
theorem utf16DecodeFuel_encode : ∀ (cps : List Nat) (fuel : Nat),
    cps.length ≤ fuel → (∀ c ∈ cps, isScalar c) →
    utf16DecodeFuel fuel (utf16Encode cps) = some cps := by
  intro cps
  induction cps with
  | nil => intro fuel _ _; rw [utf16Encode_nil]; cases fuel <;> rfl
  | cons c cs ih =>
    intro fuel hlen hsc
    have hc : isScalar c := hsc c (by simp)
    have hcs : ∀ x ∈ cs, isScalar x := fun x hx => hsc x (List.mem_cons_of_mem c hx)
    match fuel with
    | 0 => exact absurd hlen (by simp)
    | f + 1 =>
      rw [utf16Encode_cons]
      have hne : utf16EncodeChar c ++ utf16Encode cs =
          (utf16EncodeChar c ++ utf16Encode cs).head (by
            obtain ⟨h1, h2⟩ := hc
            by_cases h : c < 0x10000 <;>
              simp [utf16EncodeChar, h]) ::
          (utf16EncodeChar c ++ utf16Encode cs).tail := by
        obtain ⟨h1, h2⟩ := hc
        by_cases h : c < 0x10000 <;> simp [utf16EncodeChar, h]
      rw [hne]
      simp only [utf16DecodeFuel]
      rw [← hne, utf16DecodeSym_encode hc]
      dsimp only
      rw [ih f (by simpa using hlen) hcs]
      rfl

theorem utf16Encode_length (cps : List Nat) :
    cps.length ≤ (utf16Encode cps).length := by
  induction cps with
  | nil => simp [utf16Encode]
  | cons c cs ih =>
    rw [utf16Encode_cons]
    simp only [List.length_append, List.length_cons]
    have : 1 ≤ (utf16EncodeChar c).length := by
      by_cases h : c < 0x10000 <;> simp [utf16EncodeChar, h]
    omega

/-- Round trip of the UTF-16 codec on scalar values. -/
theorem utf16Decode_encode (cps : List Nat) (h : ∀ c ∈ cps, isScalar c) :
    utf16Decode (utf16Encode cps) = some cps :=
  utf16DecodeFuel_encode cps (utf16Encode cps).length (utf16Encode_length cps) h

/-- Data endianness, as enum mdz_endianness of mdz_types.h. -/
inductive MdzEndianness
  | undefined
  | little
  | big
  | err
deriving DecidableEq

/-- An endianness argument accepted by the operations: little or big. -/
def MdzEndianness.isValid : MdzEndianness → Bool
  | MdzEndianness.little => true
  | MdzEndianness.big => true
  | _ => false

/-- Modelled from the spec: the 16-bit unit value obtained by applying the
byte order before interpretation (the host order of the model is
little-endian, so big-endian storage is a byte swap). -/
def swap16 : MdzEndianness → Nat → Nat
  | MdzEndianness.big, u => (u % 0x100) * 0x100 + u / 0x100
  | _, u => u

/-- Modelled from the spec: the 32-bit unit value obtained by applying the
byte order before interpretation. -/
def swap32 : MdzEndianness → Nat → Nat
  | MdzEndianness.big, u =>
      (u % 0x100) * 0x1000000 + ((u / 0x100) % 0x100) * 0x10000 +
        ((u / 0x10000) % 0x100) * 0x100 + u / 0x1000000
  | _, u => u

theorem swap16_swap16 (e : MdzEndianness) {u : Nat} (h : u < 0x10000) :
    swap16 e (swap16 e u) = u := by
  cases e <;> simp only [swap16] <;> omega

theorem swap16_lt (e : MdzEndianness) {u : Nat} (h : u < 0x10000) :
    swap16 e u < 0x10000 := by
  cases e <;> simp only [swap16] <;> omega

theorem swap32_bytes (b0 b1 b2 b3 : Nat) (h0 : b0 < 0x100) (h1 : b1 < 0x100)
    (h2 : b2 < 0x100) (h3 : b3 < 0x100) :
    swap32 MdzEndianness.big (b0 * 0x1000000 + b1 * 0x10000 + b2 * 0x100 + b3)
      = b3 * 0x1000000 + b2 * 0x10000 + b1 * 0x100 + b0 := by
  simp only [swap32]
  have e0 : (b0 * 0x1000000 + b1 * 0x10000 + b2 * 0x100 + b3) % 0x100 = b3 := by
    omega
  have e1 : ((b0 * 0x1000000 + b1 * 0x10000 + b2 * 0x100 + b3) / 0x100) % 0x100
      = b2 := by omega
  have e2 : ((b0 * 0x1000000 + b1 * 0x10000 + b2 * 0x100 + b3) / 0x10000) % 0x100
      = b1 := by omega
  have e3 : (b0 * 0x1000000 + b1 * 0x10000 + b2 * 0x100 + b3) / 0x1000000 = b0 := by
    omega
  rw [e0, e1, e2, e3]

theorem swap32_swap32 (e : MdzEndianness) {u : Nat} (h : u < 0x100000000) :
    swap32 e (swap32 e u) = u := by
  cases e
  case big =>
    obtain ⟨b0, b1, b2, b3, hb0, hb1, hb2, hb3, hu⟩ :
        ∃ b0 b1 b2 b3, b0 < 0x100 ∧ b1 < 0x100 ∧ b2 < 0x100 ∧ b3 < 0x100 ∧
          u = b3 * 0x1000000 + b2 * 0x10000 + b1 * 0x100 + b0 :=
      ⟨u % 0x100, (u / 0x100) % 0x100, (u / 0x10000) % 0x100, u / 0x1000000,
        by omega, by omega, by omega, by omega, by omega⟩
    subst hu
    rw [swap32_bytes b3 b2 b1 b0 hb3 hb2 hb1 hb0,
      swap32_bytes b0 b1 b2 b3 hb0 hb1 hb2 hb3]
  all_goals simp only [swap32]

/-- Modelled from the spec: UTF-16 decoding of raw units stored or supplied
in byte order e. -/
def utf16DecodeE (e : MdzEndianness) (l : List Nat) : Option (List Nat) :=
  utf16Decode (l.map (swap16 e))

/-- Modelled from the spec: UTF-32 validation and decoding of raw units in
byte order e; each unit must be a scalar value (at most U+10FFFF and not a
surrogate). -/
def utf32DecodeE (e : MdzEndianness) (l : List Nat) : Option (List Nat) :=
  if ∀ u ∈ l, isScalar (swap32 e u) then some (l.map (swap32 e)) else Option.none

/-- Error codes, as enum mdz_error of mdz_types.h.  The utf8/utf16 headers
additionally name a test-license capacity error (MDZ_ERROR_TEST_CAPACITY)
that the shipped mdz_types.h does not list; it is modelled as the extra
constructor testCapacity. -/
inductive MdzError
  | noErr
  | data
  | capacity
  | offset
  | zerocount
  | bigcount
  | bigleft
  | bigright
  | items
  | empty
  | nonempty
  | subcontainer
  | attached
  | allocation
  | content
  | endianness
  | attachType
  | findMethod
  | threadAlloc
  | threadStart
  | source
  | attachTerminator
  | wcharSize
  | overlap
  | testCapacity
deriving DecidableEq

/-- Attachment type, as enum mdz_attach_type of mdz_types.h. -/
inductive MdzAttachType
  | zeroSize
  | sizeTerminator
  | sizeNoTerminator
deriving DecidableEq

/-- Modelled from the spec: the container state shared by every string kind
(section 3 of the spec).  content lists the units in use (Size =
content.length, excluding the terminator); capacity counts all addressable
units including the reserved terminator slot; length counts symbols (a
UTF-16 surrogate pair is one symbol); endianness and unitWidth are fixed at
creation; attached and offsetFromStart describe an external data binding;
errorCode is the sticky advisory code. -/
structure MdzStr where
  content : List Nat
  capacity : Nat
  length : Nat
  endianness : MdzEndianness
  unitWidth : Nat
  attached : Bool
  offsetFromStart : Nat
  errorCode : MdzError
deriving DecidableEq

/-- Size of the string in units, excluding the terminator. -/
def MdzStr.size (s : MdzStr) : Nat := s.content.length

/-- Modelled from the spec: the addressable buffer of a container, as the
units in use followed by the zero terminator and the unused (zeroed) slack
up to capacity. -/
def MdzStr.buf (s : MdzStr) : List Nat :=
  s.content ++ 0 :: List.replicate (s.capacity - s.content.length - 1) 0

/-- The container invariant (section 3 of the spec): the terminator slot
fits under capacity, and the symbol length never exceeds the unit size. -/
def MdzStr.inv (s : MdzStr) : Prop :=
  s.content.length + 1 ≤ s.capacity ∧ s.length ≤ s.content.length

/-- Modelled from the spec: a freshly created container of any kind, as all
factory operations document it: Capacity 1 (for the 0-terminator), Size 0,
Length 0. -/
def mdzCreate (e : MdzEndianness) (w : Nat) : MdzStr :=
  { content := [], capacity := 1, length := 0, endianness := e, unitWidth := w,
    attached := false, offsetFromStart := 0, errorCode := MdzError.noErr }

/-- Modelled from the spec: clear resets Size (and Length) to zero without
releasing capacity. -/
def mdzClear (s : MdzStr) : MdzStr :=
  { s with content := [], length := 0 }

/-- Modelled from the spec (header contract of mdz_utf8_reserve and its
siblings): reserving at most the current capacity is a no-op success with
the advisory code MDZ_ERROR_CAPACITY; growing attached data is impossible
(MDZ_ERROR_ATTACHED); the allocator may fail (allocOk false,
MDZ_ERROR_ALLOCATION); under a test license the utf8/utf16 kinds reject
requested capacities above 1200 units (testLimit true,
MDZ_ERROR_TEST_CAPACITY).  Size and Length do not change.  Returns the new
state and the coarse boolean result. -/
def mdzReserve (testLimit : Bool) (s : MdzStr) (nNewCapacity : Nat)
    (allocOk : Bool) : MdzStr × Bool :=
  if nNewCapacity ≤ s.capacity then
    ({ s with errorCode := MdzError.capacity }, true)
  else if testLimit ∧ 1200 < nNewCapacity then
    ({ s with errorCode := MdzError.testCapacity }, false)
  else if s.attached then
    ({ s with errorCode := MdzError.attached }, false)
  else if allocOk then
    ({ s with capacity := nNewCapacity, errorCode := MdzError.noErr }, true)
  else
    ({ s with errorCode := MdzError.allocation }, false)

/-- Modelled from the spec (header contracts of the four attachData
functions): binds external memory from unit offset nOffsetFromStart inside a
caller block of nCapacity units.  Every kind allows only the zero-size and
size-with-terminator attach kinds; the headers of all four kinds state that
MDZ_ATTACH_SIZE_NO_TERMINATOR is not allowed (MDZ_ERROR_ATTACHTYPE).  The
zero-size kind expects a zero unit at the offset position, the
size-with-terminator kind a zero terminator at the end of the block
(MDZ_ERROR_ATTACH_TERMINATOR otherwise); for the latter, kinds carrying a
validating codec (validate) reject invalid content (MDZ_ERROR_CONTENT) and
set Length to the decoded symbol count.  testLimit is the utf8/utf16
test-license capacity gate, endOk whether the endianness argument is valid
(true for kinds without one). -/
def mdzAttachData (testLimit : Bool) (endOk : Bool)
    (validate : Option (List Nat → Option (List Nat)))
    (s : MdzStr) (pData : Option (List Nat)) (nOffsetFromStart : Nat)
    (nCapacity : Nat) (enAttachType : MdzAttachType) : MdzStr × Bool :=
  if testLimit ∧ 1200 < nCapacity then
    ({ s with errorCode := MdzError.testCapacity }, false)
  else
    match pData with
    | Option.none => ({ s with errorCode := MdzError.data }, false)
    | some block =>
      if nCapacity ≤ nOffsetFromStart then
        ({ s with errorCode := MdzError.offset }, false)
      else if ¬ endOk then
        ({ s with errorCode := MdzError.endianness }, false)
      else
        match enAttachType with
        | MdzAttachType.sizeNoTerminator =>
          ({ s with errorCode := MdzError.attachType }, false)
        | MdzAttachType.zeroSize =>
          if block[nOffsetFromStart]? = some 0 then
            ({ s with
                content := []
                capacity := nCapacity - nOffsetFromStart
                length := 0
                attached := true
                offsetFromStart := nOffsetFromStart
                errorCode := MdzError.noErr }, true)
          else ({ s with errorCode := MdzError.attachTerminator }, false)
        | MdzAttachType.sizeTerminator =>
          if block[nCapacity - 1]? = some 0 then
            match validate with
            | Option.none =>
              ({ s with
                  content := (block.drop nOffsetFromStart).take
                    (nCapacity - nOffsetFromStart - 1)
                  capacity := nCapacity - nOffsetFromStart
                  length := ((block.drop nOffsetFromStart).take
                    (nCapacity - nOffsetFromStart - 1)).length
                  attached := true
                  offsetFromStart := nOffsetFromStart
                  errorCode := MdzError.noErr }, true)
            | some dec =>
              match dec ((block.drop nOffsetFromStart).take
                  (nCapacity - nOffsetFromStart - 1)) with
              | Option.none => ({ s with errorCode := MdzError.content }, false)
              | some cps =>
                ({ s with
                    content := (block.drop nOffsetFromStart).take
                      (nCapacity - nOffsetFromStart - 1)
                    capacity := nCapacity - nOffsetFromStart
                    length := cps.length
                    attached := true
                    offsetFromStart := nOffsetFromStart
                    errorCode := MdzError.noErr }, true)
          else ({ s with errorCode := MdzError.attachTerminator }, false)

/-- Modelled from the spec: drop k symbols from the stored content, where
symUnits gives the unit count of the first stored symbol. -/
def dropSyms (symUnits : List Nat → Nat) : Nat → List Nat → List Nat
  | 0, l => l
  | k + 1, l =>
    match l with
    | [] => []
    | u :: r => dropSyms symUnits k ((u :: r).drop (max 1 (symUnits (u :: r))))

/-- Modelled from the spec: the unit offset of the k-th symbol inside the
stored content (position resolution of section 4.3). -/
def unitPos (symUnits : List Nat → Nat) (k : Nat) (content : List Nat) : Nat :=
  content.length - (dropSyms symUnits k content).length

/-- Modelled from the spec: the insert engine shared by every
target-kind/source-kind pair (section 4.3 of the spec and the header
contracts of all insert functions).  srcDecode validates and decodes the
source units into code points or reports an error code (invalid content,
invalid endianness, invalid wchar width); encodeChar re-encodes one code
point into stored target units; symUnits resolves symbol positions in the
stored content.  items is the source unit list, where Option.none models a
NULL pointer and the empty list a zero count; allocOk models the allocator
outcome of a growth; a NULL container is not modelled (the state is passed
by value).  Returns the new state and the coarse boolean result. -/
def insertEngine (srcDecode : List Nat → Except MdzError (List Nat))
    (encodeChar : Nat → List Nat) (symUnits : List Nat → Nat)
    (s : MdzStr) (nLeftPos : Nat) (items : Option (List Nat))
    (bReserve : Bool) (allocOk : Bool) : MdzStr × Bool :=
  match items with
  | Option.none => ({ s with errorCode := MdzError.items }, true)
  | some src =>
    if src = [] then ({ s with errorCode := MdzError.zerocount }, true)
    else if s.length < nLeftPos then
      ({ s with errorCode := MdzError.bigleft }, true)
    else
      match srcDecode src with
      | Except.error e => ({ s with errorCode := e }, false)
      | Except.ok cps =>
        let conv := (cps.map encodeChar).flatten
        let p := unitPos symUnits nLeftPos s.content
        if s.capacity ≤ s.content.length + conv.length then
          if ¬ bReserve then ({ s with errorCode := MdzError.capacity }, false)
          else if s.attached then
            ({ s with errorCode := MdzError.attached }, false)
          else if allocOk then
            ({ s with
                content := s.content.take p ++ conv ++ s.content.drop p
                capacity := s.content.length + conv.length + 1
                length := s.length + cps.length
                errorCode := MdzError.noErr }, true)
          else ({ s with errorCode := MdzError.allocation }, false)
        else
          ({ s with
              content := s.content.take p ++ conv ++ s.content.drop p
              length := s.length + cps.length
              errorCode := MdzError.noErr }, true)

/-- Shared data for asynchronous calls, as struct mdz_asyncData of
mdz_types.h (container pointer and thread handle omitted). -/
structure MdzAsyncData where
  result : Bool
  finished : Bool
  cancel : Bool
deriving DecidableEq

/-- Modelled from the spec: the optional asynchronous wrapper around one
insert-engine call (section 4.4).  With no async context (NULL) the call is
synchronous and is exactly the engine call; with a context the same engine
call runs on a worker thread, recording the result and the finished flag in
the shared record; a cancellation observed before any unit is copied leaves
the container unchanged. -/
def insertEngineAsync (srcDecode : List Nat → Except MdzError (List Nat))
    (encodeChar : Nat → List Nat) (symUnits : List Nat → Nat)
    (s : MdzStr) (nLeftPos : Nat) (items : Option (List Nat))
    (bReserve : Bool) (allocOk : Bool) (pAsyncData : Option MdzAsyncData) :
    MdzStr × Bool × Option MdzAsyncData :=
  match pAsyncData with
  | Option.none =>
    let r := insertEngine srcDecode encodeChar symUnits s nLeftPos items
      bReserve allocOk
    (r.1, r.2, Option.none)
  | some c =>
    if c.cancel then
      (s, false, some { c with finished := false })
    else
      let r := insertEngine srcDecode encodeChar symUnits s nLeftPos items
        bReserve allocOk
      (r.1, r.2, some { c with finished := true, result := r.2 })

/-- Modelled from the spec: UTF-8 raw-byte source validation for the insert
engine (MDZ_ERROR_CONTENT on invalid bytes). -/
def utf8SrcDecode (l : List Nat) : Except MdzError (List Nat) :=
  match utf8Decode l with
  | Option.none => Except.error MdzError.content
  | some cps => Except.ok cps

/-- Modelled from the spec: UTF-16 raw-unit source validation with an
explicit endianness argument (MDZ_ERROR_ENDIANNESS when it is not little or
big, MDZ_ERROR_CONTENT on invalid units). -/
def utf16SrcDecode (e : MdzEndianness) (l : List Nat) :
    Except MdzError (List Nat) :=
  if e.isValid then
    match utf16DecodeE e l with
    | Option.none => Except.error MdzError.content
    | some cps => Except.ok cps
  else Except.error MdzError.endianness

/-- Modelled from the spec: UTF-32 raw-unit source validation with an
explicit endianness argument. -/
def utf32SrcDecode (e : MdzEndianness) (l : List Nat) :
    Except MdzError (List Nat) :=
  if e.isValid then
    match utf32DecodeE e l with
    | Option.none => Except.error MdzError.content
    | some cps => Except.ok cps
  else Except.error MdzError.endianness

/-- Modelled from the spec: an ANSI byte source needs no validation; every
byte maps one to one to a symbol. -/
def ansiSrcDecode (l : List Nat) : Except MdzError (List Nat) := Except.ok l

/-- Modelled from the spec: wide-character content behaves as UTF-16 when the
unit width is 2 bytes and as UTF-32 otherwise, in platform (little) byte
order. -/
def wcharDecode (w : Nat) (l : List Nat) : Option (List Nat) :=
  if w = 2 then utf16Decode l else utf32DecodeE MdzEndianness.little l

/-- Modelled from the spec: wide-character source validation with an explicit
unit width (MDZ_ERROR_WCHAR_SIZE unless 2 or 4). -/
def wcharSrcDecode (w : Nat) (l : List Nat) : Except MdzError (List Nat) :=
  if w = 2 ∨ w = 4 then
    match wcharDecode w l with
    | Option.none => Except.error MdzError.content
    | some cps => Except.ok cps
  else Except.error MdzError.wcharSize

/-- Units occupied by the first stored symbol of a UTF-8 container (lead
byte class). -/
def utf8SymUnits : List Nat → Nat
  | [] => 0
  | b :: _ =>
    if b < 0x80 then 1 else if b < 0xE0 then 2 else if b < 0xF0 then 3 else 4

/-- Units occupied by the first stored symbol of a UTF-16 container with
byte order e (two units for a stored high surrogate). -/
def utf16SymUnits (e : MdzEndianness) : List Nat → Nat
  | [] => 0
  | u :: _ => if 0xD800 ≤ swap16 e u ∧ swap16 e u < 0xDC00 then 2 else 1

/-- Units occupied by one symbol of a UTF-32 or ANSI container: always one. -/
def oneSymUnits : List Nat → Nat := fun _ => 1

/-- Units occupied by the first stored symbol of a wide-character container
of width w. -/
def wcharSymUnits (w : Nat) : List Nat → Nat :=
  if w = 2 then utf16SymUnits MdzEndianness.little else oneSymUnits

/-- Stored units of one code point in a UTF-16 container with byte order e. -/
def utf16TargetEncode (e : MdzEndianness) (c : Nat) : List Nat :=
  (utf16EncodeChar c).map (swap16 e)

/-- Stored units of one code point in a UTF-32 container with byte order e. -/
def utf32TargetEncode (e : MdzEndianness) (c : Nat) : List Nat := [swap32 e c]

/-- Stored units of one code point in a wide-character container of width w. -/
def wcharTargetEncode (w : Nat) (c : Nat) : List Nat :=
  if w = 2 then utf16EncodeChar c else [c]

/-! ## Named operations of the C headers -/

/-- Modelled from the spec: mdz_utf8_create (mdz_utf8.h): Capacity 1 (for
the 0-terminator), Size 0, Length 0; the embedded-part size does not change
the initial values. -/
def mdz_utf8_create (nEmbedSize : Nat) : MdzStr :=
  mdzCreate MdzEndianness.undefined 1

/-- Modelled from the spec: mdz_utf16_create (mdz_utf16.h): NULL on an
invalid endianness, otherwise Capacity 1, Size 0, Length 0. -/
def mdz_utf16_create (nEmbedSize : Nat) (enEndianness : MdzEndianness) :
    Option MdzStr :=
  if enEndianness.isValid then some (mdzCreate enEndianness 2) else Option.none

/-- Modelled from the spec: mdz_utf32_create (mdz_utf32.h). -/
def mdz_utf32_create (nEmbedSize : Nat) (enEndianness : MdzEndianness) :
    Option MdzStr :=
  if enEndianness.isValid then some (mdzCreate enEndianness 4) else Option.none

/-- Modelled from the spec: mdz_wchar_create (mdz_wchar.h): NULL unless the
platform wchar_t width is 2 or 4 bytes. -/
def mdz_wchar_create (nEmbedSize : Nat) (w : Nat) : Option MdzStr :=
  if w = 2 ∨ w = 4 then some (mdzCreate MdzEndianness.little w)
  else Option.none

/-- Modelled from the spec: mdz_utf8_reserve (mdz_utf8.h); testLicense is
the process-wide test-license flag gating capacities above 1200. -/
def mdz_utf8_reserve (testLicense : Bool) (pUtf8 : MdzStr)
    (nNewCapacity : Nat) (allocOk : Bool) : MdzStr × Bool :=
  mdzReserve testLicense pUtf8 nNewCapacity allocOk

/-- Modelled from the spec: mdz_utf16_reserve (mdz_utf16.h); testLicense is
the process-wide test-license flag gating capacities above 1200. -/
def mdz_utf16_reserve (testLicense : Bool) (pUtf16 : MdzStr)
    (nNewCapacity : Nat) (allocOk : Bool) : MdzStr × Bool :=
  mdzReserve testLicense pUtf16 nNewCapacity allocOk

/-- Modelled from the spec: mdz_utf32_reserve (mdz_utf32.h); its header
documents no test-license capacity limit. -/
def mdz_utf32_reserve (pUtf32 : MdzStr) (nNewCapacity : Nat)
    (allocOk : Bool) : MdzStr × Bool :=
  mdzReserve false pUtf32 nNewCapacity allocOk

/-- Modelled from the spec: mdz_wchar_reserve (mdz_wchar.h); its header
documents no test-license capacity limit. -/
def mdz_wchar_reserve (pWchar : MdzStr) (nNewCapacity : Nat)
    (allocOk : Bool) : MdzStr × Bool :=
  mdzReserve false pWchar nNewCapacity allocOk

/-- Modelled from the spec: mdz_utf8_attachData (mdz_utf8.h); content is
validated as UTF-8 for the size-with-terminator kind; the test license gates
capacities above 1200. -/
def mdz_utf8_attachData (testLicense : Bool) (pUtf8 : MdzStr)
    (pData : Option (List Nat)) (nOffsetFromStart nCapacity : Nat)
    (enAttachType : MdzAttachType) : MdzStr × Bool :=
  mdzAttachData testLicense true (some utf8Decode) pUtf8 pData
    nOffsetFromStart nCapacity enAttachType

/-- Modelled from the spec: mdz_utf16_attachData (mdz_utf16.h); content is
validated as UTF-16 under the supplied endianness for the
size-with-terminator kind; the test license gates capacities above 1200. -/
def mdz_utf16_attachData (testLicense : Bool) (pUtf16 : MdzStr)
    (pData : Option (List Nat)) (nOffsetFromStart nCapacity : Nat)
    (enAttachType : MdzAttachType) (enEndianness : MdzEndianness) :
    MdzStr × Bool :=
  mdzAttachData testLicense enEndianness.isValid
    (some (utf16DecodeE enEndianness)) pUtf16 pData nOffsetFromStart
    nCapacity enAttachType

/-- Modelled from the spec: mdz_utf32_attachData (mdz_utf32.h); its header
checks the terminator but documents no content revalidation and no
test-license capacity limit. -/
def mdz_utf32_attachData (pUtf32 : MdzStr) (pData : Option (List Nat))
    (nOffsetFromStart nCapacity : Nat) (enAttachType : MdzAttachType)
    (enEndianness : MdzEndianness) : MdzStr × Bool :=
  mdzAttachData false enEndianness.isValid Option.none pUtf32 pData
    nOffsetFromStart nCapacity enAttachType

/-- Modelled from the spec: mdz_wchar_attachData (mdz_wchar.h); content is
validated as wide characters of the container width for the
size-with-terminator kind; no test-license capacity limit is documented. -/
def mdz_wchar_attachData (pWchar : MdzStr) (pData : Option (List Nat))
    (nOffsetFromStart nCapacity : Nat) (enAttachType : MdzAttachType) :
    MdzStr × Bool :=
  mdzAttachData false true (some (wcharDecode pWchar.unitWidth)) pWchar pData
    nOffsetFromStart nCapacity enAttachType

/-- Modelled from the spec: mdz_utf8_insertUtf8_async (mdz_utf8.h); the item
count is the length of the supplied list, Option.none models a NULL items
pointer, allocOk the allocator outcome. -/
def mdz_utf8_insertUtf8_async (pUtf8 : MdzStr) (nLeftPos : Nat)
    (pcItems : Option (List Nat)) (bReserve allocOk : Bool)
    (pAsyncData : Option MdzAsyncData) : MdzStr × Bool × Option MdzAsyncData :=
  insertEngineAsync utf8SrcDecode utf8EncodeChar utf8SymUnits pUtf8 nLeftPos
    pcItems bReserve allocOk pAsyncData

/-- Synchronous form, as the macro mdz_utf8_insertUtf8 of mdz_utf8.h defines
it: the asynchronous entry point with a NULL async context. -/
def mdz_utf8_insertUtf8 (pUtf8 : MdzStr) (nLeftPos : Nat)
    (pcItems : Option (List Nat)) (bReserve allocOk : Bool) :
    MdzStr × Bool × Option MdzAsyncData :=
  mdz_utf8_insertUtf8_async pUtf8 nLeftPos pcItems bReserve allocOk Option.none

/-- Modelled from the spec: mdz_utf8_insertAnsi_async (mdz_utf8.h). -/
def mdz_utf8_insertAnsi_async (pUtf8 : MdzStr) (nLeftPos : Nat)
    (pcItems : Option (List Nat)) (bReserve allocOk : Bool)
    (pAsyncData : Option MdzAsyncData) : MdzStr × Bool × Option MdzAsyncData :=
  insertEngineAsync ansiSrcDecode utf8EncodeChar utf8SymUnits pUtf8 nLeftPos
    pcItems bReserve allocOk pAsyncData

/-- Modelled from the spec: mdz_utf8_insertUtf16_async (mdz_utf8.h):
validated UTF-16 items in the supplied byte order are re-encoded as UTF-8. -/
def mdz_utf8_insertUtf16_async (pUtf8 : MdzStr) (nLeftPos : Nat)
    (pItems : Option (List Nat)) (enEndianness : MdzEndianness)
    (bReserve allocOk : Bool) (pAsyncData : Option MdzAsyncData) :
    MdzStr × Bool × Option MdzAsyncData :=
  insertEngineAsync (utf16SrcDecode enEndianness) utf8EncodeChar utf8SymUnits
    pUtf8 nLeftPos pItems bReserve allocOk pAsyncData

/-- Modelled from the spec: mdz_utf16_insertUtf16_async (mdz_utf16.h): items
are validated under their own byte order and stored in the container byte
order. -/
def mdz_utf16_insertUtf16_async (pUtf16 : MdzStr) (nLeftPos : Nat)
    (pItems : Option (List Nat)) (enEndianness : MdzEndianness)
    (bReserve allocOk : Bool) (pAsyncData : Option MdzAsyncData) :
    MdzStr × Bool × Option MdzAsyncData :=
  insertEngineAsync (utf16SrcDecode enEndianness)
    (utf16TargetEncode pUtf16.endianness) (utf16SymUnits pUtf16.endianness)
    pUtf16 nLeftPos pItems bReserve allocOk pAsyncData

/-- Synchronous form, as the macro mdz_utf16_insertUtf16 of mdz_utf16.h
defines it. -/
def mdz_utf16_insertUtf16 (pUtf16 : MdzStr) (nLeftPos : Nat)
    (pItems : Option (List Nat)) (enEndianness : MdzEndianness)
    (bReserve allocOk : Bool) : MdzStr × Bool × Option MdzAsyncData :=
  mdz_utf16_insertUtf16_async pUtf16 nLeftPos pItems enEndianness bReserve
    allocOk Option.none

/-- Modelled from the spec: mdz_utf16_insertUtf8_async (mdz_utf16.h):
validated UTF-8 bytes are re-encoded as UTF-16 in the container byte
order. -/
def mdz_utf16_insertUtf8_async (pUtf16 : MdzStr) (nLeftPos : Nat)
    (pcItems : Option (List Nat)) (bReserve allocOk : Bool)
    (pAsyncData : Option MdzAsyncData) : MdzStr × Bool × Option MdzAsyncData :=
  insertEngineAsync utf8SrcDecode (utf16TargetEncode pUtf16.endianness)
    (utf16SymUnits pUtf16.endianness) pUtf16 nLeftPos pcItems bReserve
    allocOk pAsyncData

/-- Modelled from the spec: mdz_utf16_insertAnsi_async (mdz_utf16.h). -/
def mdz_utf16_insertAnsi_async (pUtf16 : MdzStr) (nLeftPos : Nat)
    (pcItems : Option (List Nat)) (bReserve allocOk : Bool)
    (pAsyncData : Option MdzAsyncData) : MdzStr × Bool × Option MdzAsyncData :=
  insertEngineAsync ansiSrcDecode (utf16TargetEncode pUtf16.endianness)
    (utf16SymUnits pUtf16.endianness) pUtf16 nLeftPos pcItems bReserve
    allocOk pAsyncData

/-- Modelled from the spec: mdz_utf32_insertUtf32_async (mdz_utf32.h). -/
def mdz_utf32_insertUtf32_async (pUtf32 : MdzStr) (nLeftPos : Nat)
    (pItems : Option (List Nat)) (enEndianness : MdzEndianness)
    (bReserve allocOk : Bool) (pAsyncData : Option MdzAsyncData) :
    MdzStr × Bool × Option MdzAsyncData :=
  insertEngineAsync (utf32SrcDecode enEndianness)
    (utf32TargetEncode pUtf32.endianness) oneSymUnits pUtf32 nLeftPos pItems
    bReserve allocOk pAsyncData

/-- Modelled from the spec: mdz_wchar_insertWchar_async (mdz_wchar.h): items
of explicit width nWcharSize (2 or 4 bytes) re-encoded at the container
width. -/
def mdz_wchar_insertWchar_async (pWchar : MdzStr) (nLeftPos : Nat)
    (pwcItems : Option (List Nat)) (nWcharSize : Nat) (bReserve allocOk : Bool)
    (pAsyncData : Option MdzAsyncData) : MdzStr × Bool × Option MdzAsyncData :=
  insertEngineAsync (wcharSrcDecode nWcharSize)
    (wcharTargetEncode pWchar.unitWidth) (wcharSymUnits pWchar.unitWidth)
    pWchar nLeftPos pwcItems bReserve allocOk pAsyncData

/-- Synchronous form, as the macro mdz_wchar_insertWchar of mdz_wchar.h
defines it. -/
def mdz_wchar_insertWchar (pWchar : MdzStr) (nLeftPos : Nat)
    (pwcItems : Option (List Nat)) (nWcharSize : Nat)
    (bReserve allocOk : Bool) : MdzStr × Bool × Option MdzAsyncData :=
  mdz_wchar_insertWchar_async pWchar nLeftPos pwcItems nWcharSize bReserve
    allocOk Option.none

/-! ## Helper lemmas -/

theorem dropSyms_length_le (f : List Nat → Nat) : ∀ (k : Nat) (l : List Nat),
    (dropSyms f k l).length ≤ l.length := by
  intro k
  induction k with
  | zero => intro l; simp [dropSyms]
  | succ n ih =>
    intro l
    match l with
    | [] => simp [dropSyms]
    | u :: r =>
      simp only [dropSyms]
      calc (dropSyms f n ((u :: r).drop (max 1 (f (u :: r))))).length
          ≤ ((u :: r).drop (max 1 (f (u :: r)))).length := ih _
        _ ≤ (u :: r).length := by simp

theorem unitPos_le (f : List Nat → Nat) (k : Nat) (l : List Nat) :
    unitPos f k l ≤ l.length := Nat.sub_le _ _

theorem insert_splice_length {content conv : List Nat} {p : Nat}
    (hp : p ≤ content.length) :
    (content.take p ++ conv ++ content.drop p).length
      = content.length + conv.length := by
  simp only [List.length_append, List.length_take, List.length_drop]
  omega

theorem flatten_map_length_ge (enc : Nat → List Nat)
    (h : ∀ c, 1 ≤ (enc c).length) (cps : List Nat) :
    cps.length ≤ ((cps.map enc).flatten).length := by
  induction cps with
  | nil => simp
  | cons c cs ih =>
    simp only [List.map_cons, List.flatten_cons, List.length_append,
      List.length_cons]
    have := h c
    omega

theorem mdzAttachData_noTerminator_false (testLimit endOk : Bool)
    (validate : Option (List Nat → Option (List Nat))) (s : MdzStr)
    (d : Option (List Nat)) (off cap : Nat) :
    (mdzAttachData testLimit endOk validate s d off cap
      MdzAttachType.sizeNoTerminator).2 = false := by
  unfold mdzAttachData
  by_cases h1 : testLimit = true ∧ 1200 < cap
  · rw [if_pos h1]
  · rw [if_neg h1]
    match d with
    | Option.none => rfl
    | some block =>
      dsimp only
      by_cases h2 : cap ≤ off
      · rw [if_pos h2]
      · rw [if_neg h2]
        by_cases h3 : ¬ endOk = true
        · rw [if_pos h3]
        · rw [if_neg h3]

theorem mdzAttachData_noTerminator_eq (testLimit endOk : Bool)
    (validate : Option (List Nat → Option (List Nat))) (s : MdzStr)
    (block : List Nat) (off cap : Nat)
    (h1 : ¬ (testLimit = true ∧ 1200 < cap)) (h2 : off < cap)
    (h3 : endOk = true) :
    mdzAttachData testLimit endOk validate s (some block) off cap
        MdzAttachType.sizeNoTerminator
      = ({ s with errorCode := MdzError.attachType }, false) := by
  unfold mdzAttachData
  rw [if_neg h1]
  dsimp only
  rw [if_neg (by omega), if_neg (by simp [h3])]

theorem mdzAttachData_zeroSize_bad_terminator (testLimit endOk : Bool)
    (validate : Option (List Nat → Option (List Nat))) (s : MdzStr)
    (block : List Nat) (off cap : Nat)
    (h1 : ¬ (testLimit = true ∧ 1200 < cap)) (h2 : off < cap)
    (h3 : endOk = true) (hterm : ¬ block[off]? = some 0) :
    mdzAttachData testLimit endOk validate s (some block) off cap
        MdzAttachType.zeroSize
      = ({ s with errorCode := MdzError.attachTerminator }, false) := by
  unfold mdzAttachData
  rw [if_neg h1]
  dsimp only
  rw [if_neg (by omega), if_neg (by simp [h3]), if_neg hterm]

/-! ## Claim theorems -/

/-- C4: for every insert operation taking a raw source pointer and a count,
on any container kind, a NULL source or a zero count is a benign no-op: the
call returns mdz_true, performs no mutation, and records the advisory code
MDZ_ERROR_ITEMS (null source) or MDZ_ERROR_ZEROCOUNT (zero count) in the
sticky error code; stated for the shared insert engine and for the
mdz_utf8_insertUtf8_async and mdz_utf16_insertUtf16_async entry points. -/
theorem claim4_insert_null_or_zero_noop
    (srcDecode : List Nat → Except MdzError (List Nat))
    (encodeChar : Nat → List Nat) (symUnits : List Nat → Nat)
    (s : MdzStr) (nLeftPos : Nat) (bReserve allocOk : Bool)
    (e : MdzEndianness) :
    insertEngine srcDecode encodeChar symUnits s nLeftPos Option.none bReserve
        allocOk = ({ s with errorCode := MdzError.items }, true) ∧
    insertEngine srcDecode encodeChar symUnits s nLeftPos (some []) bReserve
        allocOk = ({ s with errorCode := MdzError.zerocount }, true) ∧
    mdz_utf8_insertUtf8_async s nLeftPos Option.none bReserve allocOk
        Option.none
      = ({ s with errorCode := MdzError.items }, true, Option.none) ∧
    mdz_utf8_insertUtf8_async s nLeftPos (some []) bReserve allocOk
        Option.none
      = ({ s with errorCode := MdzError.zerocount }, true, Option.none) ∧
    mdz_utf16_insertUtf16_async s nLeftPos Option.none e bReserve allocOk
        Option.none
      = ({ s with errorCode := MdzError.items }, true, Option.none) ∧
    mdz_utf16_insertUtf16_async s nLeftPos (some []) e bReserve allocOk
        Option.none
      = ({ s with errorCode := MdzError.zerocount }, true, Option.none) := by
  refine ⟨rfl, ?_, rfl, ?_, rfl, ?_⟩ <;>
    simp [insertEngine, insertEngineAsync, mdz_utf8_insertUtf8_async,
      mdz_utf16_insertUtf16_async]

/-- C5: reserve never decreases capacity; a request at most the current
capacity is a no-op success (advisory MDZ_ERROR_CAPACITY) leaving capacity
unchanged; a successful growing reserve reaches at least the requested
capacity; size, length and content never change. -/
theorem claim5_reserve_monotone (testLimit : Bool) (s : MdzStr) (n : Nat)
    (allocOk : Bool) :
    s.capacity ≤ (mdzReserve testLimit s n allocOk).1.capacity ∧
    (n ≤ s.capacity →
      (mdzReserve testLimit s n allocOk).2 = true ∧
      (mdzReserve testLimit s n allocOk).1.capacity = s.capacity ∧
      (mdzReserve testLimit s n allocOk).1.errorCode = MdzError.capacity) ∧
    (s.capacity < n → (mdzReserve testLimit s n allocOk).2 = true →
      n ≤ (mdzReserve testLimit s n allocOk).1.capacity) ∧
    (mdzReserve testLimit s n allocOk).1.size = s.size ∧
    (mdzReserve testLimit s n allocOk).1.length = s.length ∧
    (mdzReserve testLimit s n allocOk).1.content = s.content := by
  unfold mdzReserve
  by_cases h1 : n ≤ s.capacity
  · rw [if_pos h1]
    exact ⟨le_rfl, fun _ => ⟨rfl, rfl, rfl⟩, fun h => absurd h1 (by omega),
      rfl, rfl, rfl⟩
  · rw [if_neg h1]
    by_cases h2 : testLimit = true ∧ 1200 < n
    · rw [if_pos h2]
      exact ⟨le_rfl, fun h => absurd h h1, fun _ h => by simp at h, rfl, rfl,
        rfl⟩
    · rw [if_neg h2]
      by_cases h3 : s.attached = true
      · rw [if_pos h3]
        exact ⟨le_rfl, fun h => absurd h h1, fun _ h => by simp at h, rfl,
          rfl, rfl⟩
      · rw [if_neg h3]
        by_cases h4 : allocOk = true
        · rw [if_pos h4]
          exact ⟨by simp; omega, fun h => absurd h h1, fun _ _ => le_rfl,
            rfl, rfl, rfl⟩
        · rw [if_neg h4]
          exact ⟨le_rfl, fun h => absurd h h1, fun _ h => by simp at h, rfl,
            rfl, rfl⟩

/-- Witness for C5 at a concrete container and capacity request. -/
theorem claim5_reserve_monotone_witness :
    (mdzReserve false (mdzCreate MdzEndianness.little 2) 10 true).2 = true ∧
    10 ≤ (mdzReserve false (mdzCreate MdzEndianness.little 2) 10 true).1.capacity :=
  ⟨by decide,
    (claim5_reserve_monotone false (mdzCreate MdzEndianness.little 2) 10
      true).2.2.1 (by decide) (by decide)⟩

/-- C7 counterexample: the headers of both kinds state that
MDZ_ATTACH_SIZE_NO_TERMINATOR is not allowed, so no argument tuple with that
attach kind makes mdz_utf32_attachData or mdz_wchar_attachData succeed. -/
theorem claim7_counterexample :
    ¬ ∃ (s : MdzStr) (d : Option (List Nat)) (off cap : Nat)
        (e : MdzEndianness),
        (mdz_utf32_attachData s d off cap MdzAttachType.sizeNoTerminator
          e).2 = true ∨
        (mdz_wchar_attachData s d off cap
          MdzAttachType.sizeNoTerminator).2 = true := by
  rintro ⟨s, d, off, cap, e, h | h⟩
  · simp only [mdz_utf32_attachData] at h
    rw [mdzAttachData_noTerminator_false] at h
    exact Bool.false_ne_true h
  · simp only [mdz_wchar_attachData] at h
    rw [mdzAttachData_noTerminator_false] at h
    exact Bool.false_ne_true h

/-- C7 amended: the attach-data operation of the UTF-32 and wide-character
containers rejects the attach kind MDZ_ATTACH_SIZE_NO_TERMINATOR: every call
with that kind fails, and with valid data, offset and endianness arguments
it fails precisely with the invalid-attach-type error MDZ_ERROR_ATTACHTYPE,
leaving everything but the sticky code unchanged. -/
theorem claim7_amended (s : MdzStr) (block : List Nat) (off cap : Nat)
    (e : MdzEndianness) (hoff : off < cap) (he : e.isValid = true) :
    mdz_utf32_attachData s (some block) off cap
        MdzAttachType.sizeNoTerminator e
      = ({ s with errorCode := MdzError.attachType }, false) ∧
    mdz_wchar_attachData s (some block) off cap
        MdzAttachType.sizeNoTerminator
      = ({ s with errorCode := MdzError.attachType }, false) := by
  constructor
  · simp only [mdz_utf32_attachData]
    exact mdzAttachData_noTerminator_eq false e.isValid Option.none s block
      off cap (by simp) hoff he
  · simp only [mdz_wchar_attachData]
    exact mdzAttachData_noTerminator_eq false true
      (some (wcharDecode s.unitWidth)) s block off cap (by simp) hoff rfl

/-- Witness for C7 amended at a concrete attach call. -/
theorem claim7_amended_witness :
    mdz_utf32_attachData (mdzCreate MdzEndianness.little 4) (some [0, 0, 0])
        0 3 MdzAttachType.sizeNoTerminator MdzEndianness.little
      = ({ mdzCreate MdzEndianness.little 4 with
            errorCode := MdzError.attachType }, false) ∧
    mdz_wchar_attachData (mdzCreate MdzEndianness.little 2) (some [0, 0, 0])
        0 3 MdzAttachType.sizeNoTerminator
      = ({ mdzCreate MdzEndianness.little 2 with
            errorCode := MdzError.attachType }, false) :=
  ⟨(claim7_amended (mdzCreate MdzEndianness.little 4) [0, 0, 0] 0 3
      MdzEndianness.little (by decide) (by decide)).1,
    (claim7_amended (mdzCreate MdzEndianness.little 2) [0, 0, 0] 0 3
      MdzEndianness.little (by decide) (by decide)).2⟩

/-- C8: attaching external memory with the zero-size attach kind while the
unit at the offset position is non-zero fails: mdz_false with the advisory
code MDZ_ERROR_ATTACH_TERMINATOR, and the binding (ownership, content,
capacity) is left unchanged; stated for the shared attach operation of every
kind and for the mdz_utf8_attachData and mdz_wchar_attachData entry
points. -/
theorem claim8_attach_zerosize_bad_terminator (testLimit endOk : Bool)
    (validate : Option (List Nat → Option (List Nat))) (s : MdzStr)
    (block : List Nat) (off cap : Nat)
    (h1 : ¬ (testLimit = true ∧ 1200 < cap)) (h2 : off < cap)
    (h3 : endOk = true) (hterm : ¬ block[off]? = some 0) :
    mdzAttachData testLimit endOk validate s (some block) off cap
        MdzAttachType.zeroSize
      = ({ s with errorCode := MdzError.attachTerminator }, false) ∧
    mdz_utf8_attachData false s (some block) off cap MdzAttachType.zeroSize
      = ({ s with errorCode := MdzError.attachTerminator }, false) ∧
    mdz_wchar_attachData s (some block) off cap MdzAttachType.zeroSize
      = ({ s with errorCode := MdzError.attachTerminator }, false) := by
  refine ⟨mdzAttachData_zeroSize_bad_terminator testLimit endOk validate s
      block off cap h1 h2 h3 hterm, ?_, ?_⟩
  · simp only [mdz_utf8_attachData]
    exact mdzAttachData_zeroSize_bad_terminator false true (some utf8Decode)
      s block off cap (by simp) h2 rfl hterm
  · simp only [mdz_wchar_attachData]
    exact mdzAttachData_zeroSize_bad_terminator false true
      (some (wcharDecode s.unitWidth)) s block off cap (by simp) h2 rfl hterm

/-- Witness for C8: attaching a capacity-10 block with a non-zero unit at
the offset position. -/
theorem claim8_attach_zerosize_bad_terminator_witness :
    mdz_utf8_attachData false (mdzCreate MdzEndianness.undefined 1)
        (some [7, 0, 0, 0, 0, 0, 0, 0, 0, 0]) 0 10 MdzAttachType.zeroSize
      = ({ mdzCreate MdzEndianness.undefined 1 with
            errorCode := MdzError.attachTerminator }, false) :=
  (claim8_attach_zerosize_bad_terminator false true (some utf8Decode)
    (mdzCreate MdzEndianness.undefined 1) [7, 0, 0, 0, 0, 0, 0, 0, 0, 0] 0 10
    (by decide) (by decide) rfl (by decide)).2.1

/-- C10: with a test license, mdz_utf8_reserve, mdz_utf16_reserve and the
corresponding attachData operations reject every capacity above 1200 units
with the test-capacity error, leaving the container unchanged; the wchar and
utf32 containers have no documented limit and the same request succeeds for
them. -/
theorem claim10_test_license_capacity (s : MdzStr) (n : Nat)
    (allocOk : Bool) (d : Option (List Nat)) (off : Nat)
    (aty : MdzAttachType) (e : MdzEndianness)
    (hn : 1200 < n) (hcap : s.capacity ≤ 1200)
    (hatt : s.attached = false) (halloc : allocOk = true) :
    mdz_utf8_reserve true s n allocOk
      = ({ s with errorCode := MdzError.testCapacity }, false) ∧
    mdz_utf16_reserve true s n allocOk
      = ({ s with errorCode := MdzError.testCapacity }, false) ∧
    mdz_utf8_attachData true s d off n aty
      = ({ s with errorCode := MdzError.testCapacity }, false) ∧
    mdz_utf16_attachData true s d off n aty e
      = ({ s with errorCode := MdzError.testCapacity }, false) ∧
    mdz_wchar_reserve s n allocOk
      = ({ s with capacity := n, errorCode := MdzError.noErr }, true) ∧
    mdz_utf32_reserve s n allocOk
      = ({ s with capacity := n, errorCode := MdzError.noErr }, true) := by
  subst halloc
  have hgrow : ¬ n ≤ s.capacity := by omega
  refine ⟨?_, ?_, ?_, ?_, ?_, ?_⟩
  · simp [mdz_utf8_reserve, mdzReserve, hgrow, hn]
  · simp [mdz_utf16_reserve, mdzReserve, hgrow, hn]
  · simp [mdz_utf8_attachData, mdzAttachData, hn]
  · simp [mdz_utf16_attachData, mdzAttachData, hn]
  · simp [mdz_wchar_reserve, mdzReserve, hgrow, hatt]
  · simp [mdz_utf32_reserve, mdzReserve, hgrow, hatt]

/-- Witness for C10 at a concrete container and capacity request. -/
theorem claim10_test_license_capacity_witness :
    mdz_utf8_reserve true (mdzCreate MdzEndianness.undefined 1) 1201 true
      = ({ mdzCreate MdzEndianness.undefined 1 with
            errorCode := MdzError.testCapacity }, false) ∧
    mdz_wchar_reserve (mdzCreate MdzEndianness.little 2) 1201 true
      = ({ mdzCreate MdzEndianness.little 2 with
            capacity := 1201, errorCode := MdzError.noErr }, true) :=
  ⟨(claim10_test_license_capacity (mdzCreate MdzEndianness.undefined 1) 1201
      true Option.none 0 MdzAttachType.zeroSize MdzEndianness.little
      (by decide) (by decide) rfl rfl).1,
    (claim10_test_license_capacity (mdzCreate MdzEndianness.little 2) 1201
      true Option.none 0 MdzAttachType.zeroSize MdzEndianness.little
      (by decide) (by decide) rfl rfl).2.2.2.2.1⟩

/-- C2: a synchronous insert call that fails (mdz_false) or returns mdz_true
with a no-op advisory code (MDZ_ERROR_ITEMS, MDZ_ERROR_ZEROCOUNT,
MDZ_ERROR_BIGLEFT) leaves size, length, capacity and the buffer content
byte-for-byte unchanged, for every target-kind/source-kind pair of the
insert engine. -/
theorem claim2_insert_atomicity
    (srcDecode : List Nat → Except MdzError (List Nat))
    (encodeChar : Nat → List Nat) (symUnits : List Nat → Nat)
    (s : MdzStr) (nLeftPos : Nat) (items : Option (List Nat))
    (bReserve allocOk : Bool)
    (h : (insertEngine srcDecode encodeChar symUnits s nLeftPos items
        bReserve allocOk).2 = false ∨
      ((insertEngine srcDecode encodeChar symUnits s nLeftPos items bReserve
          allocOk).2 = true ∧
        ((insertEngine srcDecode encodeChar symUnits s nLeftPos items
            bReserve allocOk).1.errorCode = MdzError.items ∨
          (insertEngine srcDecode encodeChar symUnits s nLeftPos items
            bReserve allocOk).1.errorCode = MdzError.zerocount ∨
          (insertEngine srcDecode encodeChar symUnits s nLeftPos items
            bReserve allocOk).1.errorCode = MdzError.bigleft))) :
    (insertEngine srcDecode encodeChar symUnits s nLeftPos items bReserve
        allocOk).1.size = s.size ∧
    (insertEngine srcDecode encodeChar symUnits s nLeftPos items bReserve
        allocOk).1.length = s.length ∧
    (insertEngine srcDecode encodeChar symUnits s nLeftPos items bReserve
        allocOk).1.capacity = s.capacity ∧
    (insertEngine srcDecode encodeChar symUnits s nLeftPos items bReserve
        allocOk).1.buf = s.buf := by
  cases items with
  | none => exact ⟨rfl, rfl, rfl, rfl⟩
  | some src =>
    simp only [insertEngine] at h ⊢
    by_cases hsrc : src = []
    · rw [if_pos hsrc]
      exact ⟨rfl, rfl, rfl, rfl⟩
    · rw [if_neg hsrc] at h ⊢
      by_cases hpos : s.length < nLeftPos
      · rw [if_pos hpos]
        exact ⟨rfl, rfl, rfl, rfl⟩
      · rw [if_neg hpos] at h ⊢
        cases hdec : srcDecode src with
        | error e =>
          exact ⟨rfl, rfl, rfl, rfl⟩
        | ok cps =>
          rw [hdec] at h
          dsimp only at h ⊢
          by_cases hfree : s.capacity ≤ s.content.length +
              ((cps.map encodeChar).flatten).length
          · rw [if_pos hfree] at h ⊢
            by_cases hbr : ¬ bReserve = true
            · rw [if_pos hbr]
              exact ⟨rfl, rfl, rfl, rfl⟩
            · rw [if_neg hbr] at h ⊢
              by_cases hat : s.attached = true
              · rw [if_pos hat]
                exact ⟨rfl, rfl, rfl, rfl⟩
              · rw [if_neg hat] at h ⊢
                by_cases hal : allocOk = true
                · rw [if_pos hal] at h
                  rcases h with h | ⟨_, h | h | h⟩ <;> simp at h
                · rw [if_neg hal]
                  exact ⟨rfl, rfl, rfl, rfl⟩
          · rw [if_neg hfree] at h
            rcases h with h | ⟨_, h | h | h⟩ <;> simp at h

/-- Witness for C2 at a concrete failing insert: reserve disabled on a full
container. -/
theorem claim2_insert_atomicity_witness :
    (insertEngine utf8SrcDecode utf8EncodeChar utf8SymUnits
      (mdzCreate MdzEndianness.undefined 1) 0 (some [0x62]) false true).1.size
      = (mdzCreate MdzEndianness.undefined 1).size ∧
    (insertEngine utf8SrcDecode utf8EncodeChar utf8SymUnits
      (mdzCreate MdzEndianness.undefined 1) 0 (some [0x62]) false
      true).1.length = (mdzCreate MdzEndianness.undefined 1).length ∧
    (insertEngine utf8SrcDecode utf8EncodeChar utf8SymUnits
      (mdzCreate MdzEndianness.undefined 1) 0 (some [0x62]) false
      true).1.capacity = (mdzCreate MdzEndianness.undefined 1).capacity ∧
    (insertEngine utf8SrcDecode utf8EncodeChar utf8SymUnits
      (mdzCreate MdzEndianness.undefined 1) 0 (some [0x62]) false
      true).1.buf = (mdzCreate MdzEndianness.undefined 1).buf :=
  claim2_insert_atomicity utf8SrcDecode utf8EncodeChar utf8SymUnits
    (mdzCreate MdzEndianness.undefined 1) 0 (some [0x62]) false true
    (Or.inl (by decide))

/-- C1: every successful insert (mdz_true with no advisory code recorded)
grows length by exactly the number of symbols of the converted inserted text
and size by exactly the number of destination units the conversion produced
(a surrogate pair decodes to one code point, hence one symbol, and
re-encodes to two UTF-16 units), for every target-kind/source-kind pair of
the insert engine. -/
theorem claim1_insert_accounting
    (srcDecode : List Nat → Except MdzError (List Nat))
    (encodeChar : Nat → List Nat) (symUnits : List Nat → Nat)
    (s : MdzStr) (nLeftPos : Nat) (src cps : List Nat)
    (bReserve allocOk : Bool)
    (hdec : srcDecode src = Except.ok cps)
    (hres : (insertEngine srcDecode encodeChar symUnits s nLeftPos (some src)
        bReserve allocOk).2 = true)
    (hok : (insertEngine srcDecode encodeChar symUnits s nLeftPos (some src)
        bReserve allocOk).1.errorCode = MdzError.noErr) :
    (insertEngine srcDecode encodeChar symUnits s nLeftPos (some src)
        bReserve allocOk).1.size
      = s.size + ((cps.map encodeChar).flatten).length ∧
    (insertEngine srcDecode encodeChar symUnits s nLeftPos (some src)
        bReserve allocOk).1.length = s.length + cps.length := by
  simp only [insertEngine] at hres hok ⊢
  by_cases hsrc : src = []
  · rw [if_pos hsrc] at hok
    simp at hok
  · rw [if_neg hsrc] at hres hok ⊢
    by_cases hpos : s.length < nLeftPos
    · rw [if_pos hpos] at hok
      simp at hok
    · rw [if_neg hpos] at hres hok ⊢
      rw [hdec] at hres hok ⊢
      dsimp only at hres hok ⊢
      by_cases hfree : s.capacity ≤ s.content.length +
          ((cps.map encodeChar).flatten).length
      · rw [if_pos hfree] at hres hok ⊢
        by_cases hbr : ¬ bReserve = true
        · rw [if_pos hbr] at hres
          simp at hres
        · rw [if_neg hbr] at hres hok ⊢
          by_cases hat : s.attached = true
          · rw [if_pos hat] at hres
            simp at hres
          · rw [if_neg hat] at hres hok ⊢
            by_cases hal : allocOk = true
            · rw [if_pos hal]
              refine ⟨?_, rfl⟩
              show (s.content.take (unitPos symUnits nLeftPos s.content) ++
                  (cps.map encodeChar).flatten ++
                  s.content.drop (unitPos symUnits nLeftPos s.content)).length
                = s.content.length + ((cps.map encodeChar).flatten).length
              exact insert_splice_length (unitPos_le _ _ _)
            · rw [if_neg hal] at hres
              simp at hres
      · rw [if_neg hfree]
        refine ⟨?_, rfl⟩
        show (s.content.take (unitPos symUnits nLeftPos s.content) ++
            (cps.map encodeChar).flatten ++
            s.content.drop (unitPos symUnits nLeftPos s.content)).length
          = s.content.length + ((cps.map encodeChar).flatten).length
        exact insert_splice_length (unitPos_le _ _ _)

/-- Witness for C1: inserting one UTF-8 symbol into a fresh container. -/
theorem claim1_insert_accounting_witness :
    utf8SrcDecode [0x62] = Except.ok [0x62] ∧
    (insertEngine utf8SrcDecode utf8EncodeChar utf8SymUnits
      (mdzCreate MdzEndianness.undefined 1) 0 (some [0x62]) true true).1.size
      = (mdzCreate MdzEndianness.undefined 1).size + 1 ∧
    (insertEngine utf8SrcDecode utf8EncodeChar utf8SymUnits
      (mdzCreate MdzEndianness.undefined 1) 0 (some [0x62]) true
      true).1.length = (mdzCreate MdzEndianness.undefined 1).length + 1 := by
  have h := claim1_insert_accounting utf8SrcDecode utf8EncodeChar
    utf8SymUnits (mdzCreate MdzEndianness.undefined 1) 0 [0x62] [0x62] true
    true rfl (by decide) (by decide)
  exact ⟨rfl, by simpa using h.1, by simpa using h.2⟩

theorem utf8EncodeChar_length_pos (c : Nat) : 1 ≤ (utf8EncodeChar c).length := by
  unfold utf8EncodeChar
  split_ifs <;> simp

/-- C3: the container invariants hold at creation and are preserved by every
operation: size + 1 is at most capacity, the unit at index size is the zero
terminator, length is at most size; every factory operation yields capacity
1, size 0, length 0. -/
theorem claim3_invariants :
    (∀ nEmbedSize, (mdz_utf8_create nEmbedSize).capacity = 1 ∧
      (mdz_utf8_create nEmbedSize).size = 0 ∧
      (mdz_utf8_create nEmbedSize).length = 0 ∧
      (mdz_utf8_create nEmbedSize).inv) ∧
    (∀ n e s1, mdz_utf16_create n e = some s1 →
      s1.capacity = 1 ∧ s1.size = 0 ∧ s1.length = 0 ∧ s1.inv) ∧
    (∀ e w, (mdzCreate e w).capacity = 1 ∧ (mdzCreate e w).size = 0 ∧
      (mdzCreate e w).length = 0 ∧ (mdzCreate e w).inv) ∧
    (∀ s : MdzStr, s.buf[s.size]? = some 0) ∧
    (∀ s : MdzStr, s.inv → (mdzClear s).inv) ∧
    (∀ testLimit (s : MdzStr) n allocOk, s.inv →
      (mdzReserve testLimit s n allocOk).1.inv) ∧
    (∀ testLimit endOk (s : MdzStr) d off cap aty
        (validate : Option (List Nat → Option (List Nat))),
      (∀ dec l cps, validate = some dec → dec l = some cps →
        cps.length ≤ l.length) →
      s.inv → (mdzAttachData testLimit endOk validate s d off cap aty).1.inv) ∧
    (∀ (srcDecode : List Nat → Except MdzError (List Nat))
        (encodeChar : Nat → List Nat) (symUnits : List Nat → Nat)
        (s : MdzStr) nLeftPos items bReserve allocOk,
      (∀ c, 1 ≤ (encodeChar c).length) → s.inv →
      (insertEngine srcDecode encodeChar symUnits s nLeftPos items bReserve
        allocOk).1.inv) := by
  refine ⟨?_, ?_, ?_, ?_, ?_, ?_, ?_, ?_⟩
  · intro n
    exact ⟨rfl, rfl, rfl, by constructor <;> simp [mdz_utf8_create, mdzCreate, MdzStr.inv]⟩
  · intro n e s1 h
    unfold mdz_utf16_create at h
    by_cases he : e.isValid = true
    · rw [if_pos he] at h
      simp only [Option.some.injEq] at h
      subst h
      exact ⟨rfl, rfl, rfl, by constructor <;> simp [mdzCreate, MdzStr.inv]⟩
    · rw [if_neg he] at h
      exact absurd h (by simp)
  · intro e w
    exact ⟨rfl, rfl, rfl, by constructor <;> simp [mdzCreate, MdzStr.inv]⟩
  · intro s
    simp only [MdzStr.buf, MdzStr.size]
    rw [List.getElem?_append_right le_rfl]
    simp
  · intro s hs
    exact ⟨by have := hs.1; simp [mdzClear]; omega, by simp [mdzClear]⟩
  · intro testLimit s n allocOk hs
    unfold mdzReserve
    split_ifs with ha hb hc hd
    · exact hs
    · exact hs
    · exact hs
    · refine ⟨?_, hs.2⟩
      show s.content.length + 1 ≤ n
      have := hs.1
      omega
    · exact hs
  · intro testLimit endOk s d off cap aty validate hval hs
    unfold mdzAttachData
    by_cases h1 : testLimit = true ∧ 1200 < cap
    · rw [if_pos h1]; exact hs
    · rw [if_neg h1]
      match d with
      | Option.none => exact hs
      | some block =>
        dsimp only
        by_cases h2 : cap ≤ off
        · rw [if_pos h2]; exact hs
        · rw [if_neg h2]
          by_cases h3 : ¬ endOk = true
          · rw [if_pos h3]; exact hs
          · rw [if_neg h3]
            match aty with
            | MdzAttachType.sizeNoTerminator => exact hs
            | MdzAttachType.zeroSize =>
              dsimp only
              by_cases h4 : block[off]? = some 0
              · rw [if_pos h4]
                exact ⟨by simp; omega, le_rfl⟩
              · rw [if_neg h4]; exact hs
            | MdzAttachType.sizeTerminator =>
              dsimp only
              by_cases h4 : block[cap - 1]? = some 0
              · rw [if_pos h4]
                match validate with
                | Option.none =>
                  dsimp only
                  refine ⟨?_, le_rfl⟩
                  simp only [List.length_take, List.length_drop]
                  omega
                | some dec =>
                  dsimp only
                  cases hdec : dec ((block.drop off).take (cap - off - 1)) with
                  | none => exact hs
                  | some cps =>
                    refine ⟨?_, ?_⟩
                    · simp only [List.length_take, List.length_drop]
                      omega
                    · exact hval dec _ cps rfl hdec
              · rw [if_neg h4]; exact hs
  · intro srcDecode encodeChar symUnits s nLeftPos items bReserve allocOk
      henc hs
    cases items with
    | none => exact hs
    | some src =>
      simp only [insertEngine]
      by_cases hsrc : src = []
      · rw [if_pos hsrc]; exact hs
      · rw [if_neg hsrc]
        by_cases hpos : s.length < nLeftPos
        · rw [if_pos hpos]; exact hs
        · rw [if_neg hpos]
          cases hdec : srcDecode src with
          | error e => exact hs
          | ok cps =>
            dsimp only
            have hsp : (s.content.take (unitPos symUnits nLeftPos s.content)
                ++ (cps.map encodeChar).flatten ++
                s.content.drop (unitPos symUnits nLeftPos s.content)).length
                = s.content.length + ((cps.map encodeChar).flatten).length :=
              insert_splice_length (unitPos_le _ _ _)
            have hcps : cps.length ≤ ((cps.map encodeChar).flatten).length :=
              flatten_map_length_ge encodeChar henc cps
            by_cases hfree : s.capacity ≤ s.content.length +
                ((cps.map encodeChar).flatten).length
            · rw [if_pos hfree]
              by_cases hbr : ¬ bReserve = true
              · rw [if_pos hbr]; exact hs
              · rw [if_neg hbr]
                by_cases hat : s.attached = true
                · rw [if_pos hat]; exact hs
                · rw [if_neg hat]
                  by_cases hal : allocOk = true
                  · rw [if_pos hal]
                    refine ⟨?_, ?_⟩
                    · show _ + 1 ≤ _
                      rw [hsp]
                    · show s.length + cps.length ≤ _
                      rw [hsp]
                      have := hs.2
                      omega
                  · rw [if_neg hal]; exact hs
            · rw [if_neg hfree]
              refine ⟨?_, ?_⟩
              · show _ + 1 ≤ s.capacity
                rw [hsp]
                omega
              · show s.length + cps.length ≤ _
                rw [hsp]
                have := hs.2
                omega

/-- Witness for C3: the invariants at a fresh container, after a reserve,
after an attach, and after a concrete insert. -/
theorem claim3_invariants_witness :
    (mdzCreate MdzEndianness.little 2).inv ∧
    (mdzReserve false (mdzCreate MdzEndianness.little 2) 5 true).1.inv ∧
    (mdzAttachData false true Option.none (mdzCreate MdzEndianness.little 4)
      (some [0, 0, 0]) 0 3 MdzAttachType.zeroSize).1.inv ∧
    (insertEngine utf8SrcDecode utf8EncodeChar utf8SymUnits
      (mdzCreate MdzEndianness.undefined 1) 0 (some [0x62]) true
      true).1.inv := by
  have hc := (claim3_invariants.2.2.1 MdzEndianness.little 2).2.2.2
  refine ⟨hc, ?_, ?_, ?_⟩
  · exact claim3_invariants.2.2.2.2.2.1 false _ 5 true hc
  · exact claim3_invariants.2.2.2.2.2.2.1 false true _ (some [0, 0, 0]) 0 3
      MdzAttachType.zeroSize Option.none
      (fun dec l cps hv => absurd hv (by simp))
      ((claim3_invariants.2.2.1 MdzEndianness.little 4).2.2.2)
  · exact claim3_invariants.2.2.2.2.2.2.2 utf8SrcDecode utf8EncodeChar
      utf8SymUnits _ 0 (some [0x62]) true true utf8EncodeChar_length_pos
      ((claim3_invariants.2.2.1 MdzEndianness.undefined 1).2.2.2)

theorem utf16EncodeChar_units_lt {c : Nat} (hc : isScalar c) :
    ∀ u ∈ utf16EncodeChar c, u < 0x10000 := by
  obtain ⟨h1, h2⟩ := hc
  intro u hu
  by_cases h : c < 0x10000
  · rw [utf16EncodeChar, if_pos h] at hu
    simp at hu
    omega
  · rw [utf16EncodeChar, if_neg h] at hu
    simp at hu
    have hd : (c - 0x10000) / 0x400 ≤ 0x3FF := by omega
    have hm : (c - 0x10000) % 0x400 ≤ 0x3FF := by omega
    rcases hu with hu | hu <;> omega

theorem utf16Encode_units_lt {cps : List Nat} (h : ∀ c ∈ cps, isScalar c) :
    ∀ u ∈ utf16Encode cps, u < 0x10000 := by
  induction cps with
  | nil => simp [utf16Encode]
  | cons c cs ih =>
    intro u hu
    rw [utf16Encode_cons] at hu
    rcases List.mem_append.mp hu with hu | hu
    · exact utf16EncodeChar_units_lt (h c (by simp)) u hu
    · exact ih (fun x hx => h x (List.mem_cons_of_mem c hx)) u hu

theorem utf16TargetEncode_flatten (e : MdzEndianness) (cps : List Nat) :
    (cps.map (utf16TargetEncode e)).flatten = (utf16Encode cps).map (swap16 e) := by
  induction cps with
  | nil => simp [utf16Encode]
  | cons c cs ih =>
    simp only [List.map_cons, List.flatten_cons, utf16Encode_cons,
      List.map_append, ih, utf16TargetEncode]

theorem map_swap16_invol (e : MdzEndianness) {l : List Nat}
    (h : ∀ u ∈ l, u < 0x10000) : (l.map (swap16 e)).map (swap16 e) = l := by
  induction l with
  | nil => rfl
  | cons u r ih =>
    simp only [List.map_cons, List.cons.injEq]
    exact ⟨swap16_swap16 e (h u (by simp)),
      ih (fun x hx => h x (List.mem_cons_of_mem u hx))⟩

theorem utf16TargetEncode_length_pos (e : MdzEndianness) (c : Nat) :
    1 ≤ (utf16TargetEncode e c).length := by
  unfold utf16TargetEncode
  rw [List.length_map]
  by_cases h : c < 0x10000 <;> simp [utf16EncodeChar, h]

/-- Inserting a non-empty validated raw source into a freshly created
container commits exactly the converted units. -/
theorem insertEngine_empty (srcDecode : List Nat → Except MdzError (List Nat))
    (encodeChar : Nat → List Nat) (symUnits : List Nat → Nat)
    (e : MdzEndianness) (w : Nat) (src cps : List Nat)
    (hsrc : src ≠ []) (hdec : srcDecode src = Except.ok cps)
    (hconv : 1 ≤ ((cps.map encodeChar).flatten).length) :
    insertEngine srcDecode encodeChar symUnits (mdzCreate e w) 0 (some src)
        true true
      = ({ content := (cps.map encodeChar).flatten,
           capacity := ((cps.map encodeChar).flatten).length + 1,
           length := cps.length, endianness := e, unitWidth := w,
           attached := false, offsetFromStart := 0,
           errorCode := MdzError.noErr }, true) := by
  simp only [insertEngine]
  rw [if_neg hsrc, if_neg (by simp [mdzCreate]), hdec]
  dsimp only
  rw [if_pos (by simpa [mdzCreate] using hconv)]
  rw [if_neg (by simp), if_neg (by simp [mdzCreate])]
  simp [mdzCreate, unitPos, dropSyms]

/-- C6: a byte sequence accepted by the UTF-8 codec, inserted into a fresh
UTF-16 container of either byte order, decodes to scalar code points only
(surrogate code points are rejected at the validation boundary); the stored
UTF-16 units are valid UTF-16 reproducing the same code points, and
inserting them into a fresh UTF-8 container reproduces the original bytes
exactly. -/
theorem claim6_utf8_utf16_roundtrip (e : MdzEndianness) (bytes cps : List Nat)
    (he : e.isValid = true) (hne : bytes ≠ [])
    (hdec : utf8Decode bytes = some cps) :
    (∀ c ∈ cps, isScalar c) ∧
    (mdz_utf16_insertUtf8_async (mdzCreate e 2) 0 (some bytes) true true
      Option.none).2.1 = true ∧
    (mdz_utf16_insertUtf8_async (mdzCreate e 2) 0 (some bytes) true true
      Option.none).1.errorCode = MdzError.noErr ∧
    utf16DecodeE e
      ((mdz_utf16_insertUtf8_async (mdzCreate e 2) 0 (some bytes) true true
        Option.none).1.content) = some cps ∧
    (mdz_utf8_insertUtf16_async (mdzCreate MdzEndianness.undefined 1) 0
      (some ((mdz_utf16_insertUtf8_async (mdzCreate e 2) 0 (some bytes) true
        true Option.none).1.content)) e true true Option.none).2.1 = true ∧
    (mdz_utf8_insertUtf16_async (mdzCreate MdzEndianness.undefined 1) 0
      (some ((mdz_utf16_insertUtf8_async (mdzCreate e 2) 0 (some bytes) true
        true Option.none).1.content)) e true true Option.none).1.content
      = bytes := by
  obtain ⟨henc8, hscal⟩ := utf8Decode_sound hdec
  have hcpsne : cps ≠ [] := by
    intro hnil
    rw [hnil] at henc8
    exact hne (by simpa [utf8Encode] using henc8.symm)
  have hcpslen : 1 ≤ cps.length := List.length_pos.mpr hcpsne
  have hconv16 : 1 ≤ ((cps.map (utf16TargetEncode e)).flatten).length :=
    le_trans hcpslen
      (flatten_map_length_ge _ (utf16TargetEncode_length_pos e) cps)
  have hsrc8 : utf8SrcDecode bytes = Except.ok cps := by
    unfold utf8SrcDecode
    rw [hdec]
  have hstep1 : mdz_utf16_insertUtf8_async (mdzCreate e 2) 0 (some bytes)
      true true Option.none
      = ({ content := (cps.map (utf16TargetEncode e)).flatten,
           capacity := ((cps.map (utf16TargetEncode e)).flatten).length + 1,
           length := cps.length, endianness := e, unitWidth := 2,
           attached := false, offsetFromStart := 0,
           errorCode := MdzError.noErr }, true, Option.none) := by
    simp only [mdz_utf16_insertUtf8_async, insertEngineAsync]
    rw [show (mdzCreate e 2).endianness = e from rfl]
    rw [insertEngine_empty utf8SrcDecode (utf16TargetEncode e)
      (utf16SymUnits e) e 2 bytes cps hne hsrc8 hconv16]
  have hcontent : (mdz_utf16_insertUtf8_async (mdzCreate e 2) 0 (some bytes)
      true true Option.none).1.content
      = (utf16Encode cps).map (swap16 e) := by
    rw [hstep1]
    exact utf16TargetEncode_flatten e cps
  have hback : utf16DecodeE e ((utf16Encode cps).map (swap16 e)) = some cps := by
    unfold utf16DecodeE
    rw [map_swap16_invol e (utf16Encode_units_lt hscal)]
    exact utf16Decode_encode cps hscal
  have hsrc16 : utf16SrcDecode e ((utf16Encode cps).map (swap16 e))
      = Except.ok cps := by
    unfold utf16SrcDecode
    rw [he]
    simp only [if_true]
    rw [hback]
  have hunits : ((utf16Encode cps).map (swap16 e)) ≠ [] := by
    intro hnil
    have := congrArg List.length hnil
    simp only [List.length_map, List.length_nil] at this
    have := utf16Encode_length cps
    omega
  have hconv8 : 1 ≤ ((cps.map utf8EncodeChar).flatten).length :=
    le_trans hcpslen (flatten_map_length_ge _ utf8EncodeChar_length_pos cps)
  have hstep2 : mdz_utf8_insertUtf16_async (mdzCreate MdzEndianness.undefined 1)
      0 (some ((utf16Encode cps).map (swap16 e))) e true true Option.none
      = ({ content := (cps.map utf8EncodeChar).flatten,
           capacity := ((cps.map utf8EncodeChar).flatten).length + 1,
           length := cps.length, endianness := MdzEndianness.undefined,
           unitWidth := 1, attached := false, offsetFromStart := 0,
           errorCode := MdzError.noErr }, true, Option.none) := by
    simp only [mdz_utf8_insertUtf16_async, insertEngineAsync]
    rw [insertEngine_empty (utf16SrcDecode e) utf8EncodeChar utf8SymUnits
      MdzEndianness.undefined 1 ((utf16Encode cps).map (swap16 e)) cps hunits
      hsrc16 hconv8]
  have hbytes : (cps.map utf8EncodeChar).flatten = bytes := henc8
  refine ⟨hscal, ?_, ?_, ?_, ?_, ?_⟩
  · rw [hstep1]
  · rw [hstep1]
  · rw [hcontent]
    exact hback
  · rw [hcontent, hstep2]
  · rw [hcontent, hstep2]
    exact hbytes

/-- Witness for C6: the UTF-8 bytes of U+1F600 (a surrogate-pair symbol in
UTF-16) survive the round trip through a little-endian UTF-16 container. -/
theorem claim6_utf8_utf16_roundtrip_witness :
    (mdz_utf8_insertUtf16_async (mdzCreate MdzEndianness.undefined 1) 0
      (some ((mdz_utf16_insertUtf8_async (mdzCreate MdzEndianness.little 2) 0
        (some [0xF0, 0x9F, 0x98, 0x80]) true true Option.none).1.content))
      MdzEndianness.little true true Option.none).1.content
      = [0xF0, 0x9F, 0x98, 0x80] :=
  (claim6_utf8_utf16_roundtrip MdzEndianness.little [0xF0, 0x9F, 0x98, 0x80]
    [0x1F600] rfl (by decide) (by decide)).2.2.2.2.2

end MdzUnicode
